import Mathlib

/-!
Verification development for `git-simple-merge` (src/git-simple-merge.py).

The Python source is shallowly embedded below: raw file content is a
`List String` of lines (trailing newline included, as produced by Python's
`readlines`), the conflict-hunk parser `get_conflicts` is a forward scan
over the indexed lines, context windowing is `extract_context`, the
per-hunk renderer `display_hunk` returns the sequence of printed strings
(colour escape codes, a purely presentational detail, are dropped), and
the interactive resolution loop of `process_file` together with `main`'s
file driver is a step function plus a driver recursion over the command
script and the conflicted-file list.
-/

namespace GitSimpleMerge

/-- Python's `str.startswith(p)` as used on each line by the parser and the
whole-file renderer: the character list of `p` is a prefix of the line. -/
def startswith (line p : String) : Bool :=
  List.isPrefixOf p.data line.data

/-- Parser state of `get_conflicts` (src 74, 90, 92, 102): Python uses
`None` / `'ours'` / `'theirs'`. -/
inductive PState where
  | none
  | ours
  | theirs
deriving DecidableEq

/-- `ConflictHunk` dataclass (src 22–30).  Field names follow the source;
the spec calls `ours`/`theirs` "oursLines"/"theirsLines". -/
structure ConflictHunk where
  header : String
  ours : List String
  theirs : List String
  context_before : List String
  context_after : List String
  start_line : Option Nat
deriving DecidableEq

/-- Python slice `xs[a:b]` for natural bounds. -/
def pySlice (xs : List String) (a b : Nat) : List String :=
  (xs.take b).drop a

/-- `extract_context` (src 63–67):
`before = content[max(0, start - k):start]`,
`after = content[end:min(len(content), end + k)]`.
Natural subtraction `start - k` is exactly `max(0, start - k)`. -/
def extract_context (context_lines : Nat) (content : List String)
    (start stop : Nat) : List String × List String :=
  (pySlice content (start - context_lines) start,
   pySlice content stop (min content.length (stop + context_lines)))

/-- The mutable locals of the scan loop in `get_conflicts` (src 72–75). -/
structure ScanState where
  hunks : List ConflictHunk
  current : Option ConflictHunk
  state : PState
  hunk_start : Nat
deriving DecidableEq

/-- One iteration of the `for i, line in enumerate(content)` loop of
`get_conflicts` (src 77–107), transcribed branch for branch. -/
def scanStep (k : Nat) (content : List String) (st : ScanState)
    (i : Nat) (line : String) : ScanState :=
  if startswith line "<<<<<<<" then
    let st1 :=
      match st.current with
      | some h =>
        let ba := extract_context k content st.hunk_start i
        { st with hunks := st.hunks ++
            [{ h with context_before := ba.1, context_after := ba.2 }] }
      | none => st
    { st1 with
        hunk_start := i,
        current := some
          { header := line, ours := [], theirs := [],
            context_before := [], context_after := [], start_line := some i },
        state := PState.ours }
  else if startswith line "=======" && st.state == PState.ours then
    { st with state := PState.theirs }
  else if startswith line ">>>>>>>" && st.state == PState.theirs then
    match st.current with
    | some h =>
      let h2 := { h with theirs := h.theirs ++ [line] }
      let ba := extract_context k content st.hunk_start (i + 1)
      { st with
          hunks := st.hunks ++
            [{ h2 with context_before := ba.1, context_after := ba.2 }],
          current := none,
          state := PState.none }
    | none => { st with current := none, state := PState.none }
  else
    match st.current, st.state with
    | some h, PState.ours =>
      { st with current := some { h with ours := h.ours ++ [line] } }
    | some h, PState.theirs =>
      { st with current := some { h with theirs := h.theirs ++ [line] } }
    | _, _ => st

/-- The scan loop from line index `i` over the remaining lines. -/
def scanFrom (k : Nat) (content : List String) :
    Nat → List String → ScanState → ScanState
  | _, [], st => st
  | i, l :: ls, st => scanFrom k content (i + 1) ls (scanStep k content st i l)

/-- Initial loop state (src 72–75): `hunks = []`, `current_hunk = None`,
`state = None`; `hunk_start = None` is modelled as `0`, it is never read
before being assigned. -/
def initScan : ScanState :=
  { hunks := [], current := none, state := PState.none, hunk_start := 0 }

/-- `get_conflicts` (src 69–109) on already-read content. -/
def get_conflicts (content : List String) (context_lines : Nat) :
    List ConflictHunk :=
  (scanFrom context_lines content 0 content initScan).hunks

/-- Characters removed by Python's `str.rstrip()` with no argument. -/
def pyIsSpace (c : Char) : Bool :=
  c == ' ' || c == '\t' || c == '\n' || c == '\x0b' || c == '\x0c' || c == '\r'

/-- Python's `str.rstrip()`. -/
def rstrip (s : String) : String :=
  String.mk ((s.data.reverse.dropWhile pyIsSpace).reverse)

/-- The `'='*80` banner printed by `display_hunk` (src 149). -/
def eqBanner : String :=
  String.mk (List.replicate 80 '=')

/-- `display_hunk` (src 146–167): the sequence of strings printed for one
hunk, one list element per `print` call, colour codes dropped.  Note that
the `theirs` buffer is printed in full (src 161–162): the end-marker line
the parser appended to it is NOT removed here. -/
def display_hunk (h : ConflictHunk) (hunk_index : Nat) : List String :=
  ["\nConflict " ++ toString (hunk_index + 1) ++ ":", eqBanner]
    ++ h.context_before.map rstrip
    ++ [h.header, "<<<<<<< ours"]
    ++ h.ours.map rstrip
    ++ ["======="]
    ++ h.theirs.map rstrip
    ++ [">>>>>>> theirs"]
    ++ h.context_after.map rstrip

/-- `ViewMode` (src 18–20). -/
inductive ViewMode where
  | hunk
  | file
deriving DecidableEq

/-- The eight single-character commands accepted by `prompt_user`
(src 169–190): keep-ours, keep-theirs, edit, open-diff-tool (vimdiff),
toggle-view, more-context, skip, quit. -/
inductive Command where
  | o
  | t
  | e
  | v
  | m
  | c
  | s
  | q
deriving DecidableEq

/-- The controller states named by the spec (section 4.4): the loop of
`process_file` re-enters `selecting`; `resolved`/`skipped` end the loop for
the current file (`break` / return); `aborted` is `sys.exit(0)` (src 211). -/
inductive LoopStatus where
  | selecting
  | resolved
  | skipped
  | aborted
deriving DecidableEq

/-- Which side a resolution keeps. -/
inductive Choice where
  | ours
  | theirs
deriving DecidableEq

/-- Modelled from the spec: the method `resolve_hunk`, invoked at src line
230 (`self.resolve_hunk(file_path, hunks[0], 0)`), is absent from src/.
Per the spec (sections 4.4 and 8), keep-ours replaces the file content by
removing the three conflict-marker lines and the theirs body of the
acted-on hunk while keeping the ours body, and keep-theirs symmetrically;
lines outside the hunk span are untouched.  The hunk span starts at the
recorded `start_line` and covers the header line, the ours lines, the
separator line and the `theirs` buffer (which, per the parser, already
contains the end-marker line as its last element; that marker line is
stripped when the theirs body is kept, per spec section 3). -/
def resolve_hunk (content : List String) (h : ConflictHunk)
    (choice : Choice) : List String :=
  match h.start_line with
  | some s =>
    let span := 2 + h.ours.length + h.theirs.length
    let body :=
      match choice with
      | Choice.ours => h.ours
      | Choice.theirs => h.theirs.dropLast
    content.take s ++ body ++ content.drop (s + span)
  | none => content

/-- The per-file loop state of `process_file` (src 192–231): the session
fields `view_mode` and `context_lines` of the resolver object, the file
content on disk, and the hunk list computed once at src 194. -/
structure FileSession where
  view_mode : ViewMode
  context_lines : Nat
  content : List String
  hunks : List ConflictHunk
deriving DecidableEq

/-- One round of the `while True` loop of `process_file` (src 200–231):
render (pure), prompt, dispatch.  Branches in source order: `'q'` exits the
process (src 209–211); `'m'` toggles the view mode (src 212–214); `'c'`
sets `context_lines = min(context_lines + 3, 10)` and nothing else — in
particular `hunks` is NOT recomputed (src 215–217); `'v'` launches vimdiff
and re-prompts (src 218–219); `'e'` runs the editor, stages, and breaks
(src 220–227); the final else branch (src 228–231), reached for `'o'`,
`'t'` and `'s'`, calls the absent `resolve_hunk` on `hunks[0]` and breaks.
That missing callee is modelled from the spec's transition table (section
4.4): keep-ours/keep-theirs rewrite the content via `resolve_hunk` and end
the loop `resolved`; skip leaves the content untouched and ends the loop
`skipped`. -/
def process_step (fs : FileSession) (cmd : Command) :
    FileSession × LoopStatus :=
  match cmd with
  | Command.q => (fs, LoopStatus.aborted)
  | Command.m =>
    ({ fs with view_mode :=
        if fs.view_mode == ViewMode.file then ViewMode.hunk else ViewMode.file },
     LoopStatus.selecting)
  | Command.c =>
    ({ fs with context_lines := min (fs.context_lines + 3) 10 },
     LoopStatus.selecting)
  | Command.v => (fs, LoopStatus.selecting)
  | Command.e => (fs, LoopStatus.resolved)
  | Command.o =>
    (match fs.hunks with
     | h :: _ =>
       ({ fs with content := resolve_hunk fs.content h Choice.ours },
        LoopStatus.resolved)
     | [] => (fs, LoopStatus.resolved))
  | Command.t =>
    (match fs.hunks with
     | h :: _ =>
       ({ fs with content := resolve_hunk fs.content h Choice.theirs },
        LoopStatus.resolved)
     | [] => (fs, LoopStatus.resolved))
  | Command.s => (fs, LoopStatus.skipped)

/-- Iterated `process_step`, keeping only the session/file state. -/
def steps (fs : FileSession) (cmds : List Command) : FileSession :=
  cmds.foldl (fun s cmd => (process_step s cmd).1) fs

/-- Run the loop of `process_file` on a command script until a command
ends it; returns the final state, how the loop ended, and the unconsumed
commands.  An exhausted script means the program is still blocked on
`input()`, reported as `selecting`. -/
def run_file : FileSession → List Command → FileSession × LoopStatus × List Command
  | fs, [] => (fs, LoopStatus.selecting, [])
  | fs, cmd :: rest =>
    match process_step fs cmd with
    | (fs1, LoopStatus.selecting) => run_file fs1 rest
    | (fs1, st) => (fs1, st, rest)

/-- The resolver-object state that survives across files (src 35–38):
`view_mode` and `context_lines`. -/
structure Session where
  view_mode : ViewMode
  context_lines : Nat
deriving DecidableEq

/-- `GitConflictResolver.__init__` (src 35–38): `view_mode = FILE`,
`context_lines = 3`. -/
def init_view_mode : ViewMode := ViewMode.file

/-- Initial context-window size (src 38). -/
def init_context_lines : Nat := 3

/-- How one whole run ends: falling off `main` (exit code 0), the
`sys.exit(0)` of the quit command (src 211), or blocked on `input()`. -/
inductive RunOutcome where
  | completed
  | quitExit
  | outOfInput
deriving DecidableEq

/-- Process exit code for each outcome; `none` while still blocked. -/
def exit_code : RunOutcome → Option Nat
  | RunOutcome.completed => some 0
  | RunOutcome.quitExit => some 0
  | RunOutcome.outOfInput => none

/-- The `FileSession` with which `process_file` starts on file content `f`:
the resolver's current session state plus the hunks parsed once at src 194. -/
def fileState (sess : Session) (f : List String) : FileSession :=
  { view_mode := sess.view_mode, context_lines := sess.context_lines,
    content := f, hunks := get_conflicts f sess.context_lines }

/-- The session state carried out of a file's processing loop. -/
def sessionOf (fs : FileSession) : Session :=
  { view_mode := fs.view_mode, context_lines := fs.context_lines }

/-- main's loop over the conflicted files (src 254–255) combined with
`process_file` (src 192–231): each file's content is threaded through; a
file with no hunks is reported and left as is (src 196–198); `quit` ends
the whole process, leaving every remaining file untouched and unprocessed.
Returns the final contents of all files and the outcome. -/
def run_files : Session → List (List String) → List Command →
    List (List String) × RunOutcome
  | _, [], _ => ([], RunOutcome.completed)
  | sess, f :: rest, cmds =>
    if (get_conflicts f sess.context_lines).isEmpty then
      let r := run_files sess rest cmds
      (f :: r.1, r.2)
    else
      match run_file (fileState sess f) cmds with
      | (fs1, LoopStatus.aborted, _) => (fs1.content :: rest, RunOutcome.quitExit)
      | (fs1, LoopStatus.selecting, _) => (fs1.content :: rest, RunOutcome.outOfInput)
      | (fs1, _, restCmds) =>
        let r := run_files (sessionOf fs1) rest restCmds
        (fs1.content :: r.1, r.2)

/-- Command-line and environment state read by `main` (src 233–239):
`sys.argv` and the four merge-tool variables, `None` when unset. -/
structure PyEnv where
  argv : List String
  local_ : Option String
  base : Option String
  remote : Option String
  merged : Option String

/-- Python truthiness of `os.environ.get(...)`: `None` and the empty
string are falsy. -/
def truthy : Option String → Bool
  | none => false
  | some sv => !(sv == "")

/-- Which top-level mode `main` takes (src 233–248): the merge-tool branch
requires `len(sys.argv) > 1 and sys.argv[1] == '--mergetool'` and
`all([local, base, remote, merged])`; otherwise control falls through to
the regular no-argument operation. -/
inductive MainMode where
  | mergetool (merged : String)
  | regular
deriving DecidableEq

/-- The branch structure of `main` (src 233–248). -/
def main_dispatch (env : PyEnv) : MainMode :=
  if 1 < env.argv.length ∧ env.argv.getD 1 "" = "--mergetool" then
    if [env.local_, env.base, env.remote, env.merged].all truthy then
      MainMode.mergetool (env.merged.getD "")
    else
      MainMode.regular
  else
    MainMode.regular

/-- `main` (src 233–257): in merge-tool mode only the merged file is
processed; in regular mode every conflicted file reported by the
version-control layer is processed, with the initial session state of
`GitConflictResolver.__init__`. -/
def main_run (env : PyEnv) (conflicted : List (List String))
    (mergedContent : List String) (cmds : List Command) :
    List (List String) × RunOutcome :=
  match main_dispatch env with
  | MainMode.mergetool _ =>
    run_files { view_mode := init_view_mode, context_lines := init_context_lines }
      [mergedContent] cmds
  | MainMode.regular =>
    run_files { view_mode := init_view_mode, context_lines := init_context_lines }
      conflicted cmds

/-- A line that begins with none of the three conflict-marker tokens. -/
def noMarker (l : String) : Prop :=
  startswith l "<<<<<<<" = false ∧ startswith l "=======" = false ∧
    startswith l ">>>>>>>" = false

instance (l : String) : Decidable (noMarker l) := by
  unfold noMarker; infer_instance

lemma isPrefixOf_cons_false {l : List Char} {c d : Char} {p q : List Char}
    (hcd : c ≠ d) (h : List.isPrefixOf (c :: p) l = true) :
    List.isPrefixOf (d :: q) l = false := by
  cases l with
  | nil => simp [List.isPrefixOf] at h
  | cons a as =>
    simp only [List.isPrefixOf, Bool.and_eq_true, beq_iff_eq] at h
    have hda : (d == a) = false := by
      simp only [beq_eq_false_iff_ne, ne_eq]
      intro hda
      exact hcd (h.1.symm ▸ hda ▸ rfl)
    simp [List.isPrefixOf, hda]

lemma sep_not_start {l : String} (h : startswith l "=======" = true) :
    startswith l "<<<<<<<" = false :=
  isPrefixOf_cons_false (by decide) h

lemma sep_not_end {l : String} (h : startswith l "=======" = true) :
    startswith l ">>>>>>>" = false :=
  isPrefixOf_cons_false (by decide) h

lemma endm_not_start {l : String} (h : startswith l ">>>>>>>" = true) :
    startswith l "<<<<<<<" = false :=
  isPrefixOf_cons_false (by decide) h

lemma scanFrom_append (k : Nat) (content xs ys : List String) (i : Nat)
    (st : ScanState) :
    scanFrom k content i (xs ++ ys) st
      = scanFrom k content (i + xs.length) ys (scanFrom k content i xs st) := by
  induction xs generalizing i st with
  | nil => simp [scanFrom]
  | cons x xs ih =>
    simp only [List.cons_append, scanFrom, List.length_cons, List.append_eq]
    rw [ih]
    have hidx : i + 1 + xs.length = i + (xs.length + 1) := by omega
    rw [hidx]

lemma scanFrom_idle (k : Nat) (content : List String) :
    ∀ (ls : List String) (i : Nat) (st : ScanState),
      (∀ l ∈ ls, startswith l "<<<<<<<" = false) →
      st.current = none → st.state = PState.none →
      scanFrom k content i ls st = st := by
  intro ls
  induction ls with
  | nil => intro i st _ _ _; rfl
  | cons l ls ih =>
    intro i st hl hcur hst
    have hstep : scanStep k content st i l = st := by
      simp [scanStep, hl l (List.mem_cons_self l ls), hst, hcur]
    simp only [scanFrom, hstep]
    exact ih (i + 1) st (fun x hx => hl x (List.mem_cons_of_mem l hx)) hcur hst

lemma scanFrom_collect_ours (k : Nat) (content : List String) :
    ∀ (ls : List String) (i : Nat) (st : ScanState) (h : ConflictHunk),
      (∀ l ∈ ls, noMarker l) →
      st.current = some h → st.state = PState.ours →
      scanFrom k content i ls st
        = { st with current := some { h with ours := h.ours ++ ls } } := by
  intro ls
  induction ls with
  | nil =>
    intro i st h _ hcur hst
    obtain ⟨hs, cur, stt, hstart⟩ := st
    simp only [scanFrom, List.append_nil]
    simp only at hcur
    rw [hcur]
  | cons l ls ih =>
    intro i st h hl hcur hst
    obtain ⟨h1, h2, h3⟩ := hl l (List.mem_cons_self l ls)
    have hstep : scanStep k content st i l
        = { st with current := some { h with ours := h.ours ++ [l] } } := by
      simp [scanStep, h1, h2, h3, hcur, hst]
    simp only [scanFrom, hstep]
    rw [ih (i + 1) { st with current := some { h with ours := h.ours ++ [l] } }
      { h with ours := h.ours ++ [l] }
      (fun x hx => hl x (List.mem_cons_of_mem l hx)) rfl hst]
    simp [List.append_assoc]

lemma scanFrom_collect_theirs (k : Nat) (content : List String) :
    ∀ (ls : List String) (i : Nat) (st : ScanState) (h : ConflictHunk),
      (∀ l ∈ ls, noMarker l) →
      st.current = some h → st.state = PState.theirs →
      scanFrom k content i ls st
        = { st with current := some { h with theirs := h.theirs ++ ls } } := by
  intro ls
  induction ls with
  | nil =>
    intro i st h _ hcur hst
    obtain ⟨hs, cur, stt, hstart⟩ := st
    simp only [scanFrom, List.append_nil]
    simp only at hcur
    rw [hcur]
  | cons l ls ih =>
    intro i st h hl hcur hst
    obtain ⟨h1, h2, h3⟩ := hl l (List.mem_cons_self l ls)
    have hstep : scanStep k content st i l
        = { st with current := some { h with theirs := h.theirs ++ [l] } } := by
      simp [scanStep, h1, h2, h3, hcur, hst]
    simp only [scanFrom, hstep]
    rw [ih (i + 1) { st with current := some { h with theirs := h.theirs ++ [l] } }
      { h with theirs := h.theirs ++ [l] }
      (fun x hx => hl x (List.mem_cons_of_mem l hx)) rfl hst]
    simp [List.append_assoc]

lemma scanFrom_single_hunk (k : Nat)
    (content pre oursB theirsB post : List String) (startL sep endm : String)
    (hs : startswith startL "<<<<<<<" = true)
    (hsep : startswith sep "=======" = true)
    (he : startswith endm ">>>>>>>" = true)
    (hpre : ∀ l ∈ pre, startswith l "<<<<<<<" = false)
    (hours : ∀ l ∈ oursB, noMarker l)
    (hth : ∀ l ∈ theirsB, noMarker l)
    (hpost : ∀ l ∈ post, startswith l "<<<<<<<" = false) :
    scanFrom k content 0 (pre ++ startL :: (oursB ++ sep :: (theirsB ++ endm :: post)))
        initScan
      = { hunks := [{ header := startL, ours := oursB, theirs := theirsB ++ [endm],
                      context_before := (extract_context k content pre.length
                        (pre.length + oursB.length + theirsB.length + 3)).1,
                      context_after := (extract_context k content pre.length
                        (pre.length + oursB.length + theirsB.length + 3)).2,
                      start_line := some pre.length }],
          current := none, state := PState.none, hunk_start := pre.length } := by
  rw [scanFrom_append]
  rw [scanFrom_idle k content pre 0 initScan hpre rfl rfl]
  simp only [Nat.zero_add, scanFrom]
  have hstep1 : scanStep k content initScan pre.length startL
      = { hunks := [],
          current := some { header := startL, ours := [], theirs := [],
                            context_before := [], context_after := [],
                            start_line := some pre.length },
          state := PState.ours, hunk_start := pre.length } := by
    simp [scanStep, hs, initScan]
  rw [hstep1, scanFrom_append]
  rw [scanFrom_collect_ours k content oursB (pre.length + 1)
      { hunks := [],
        current := some { header := startL, ours := [], theirs := [],
                          context_before := [], context_after := [],
                          start_line := some pre.length },
        state := PState.ours, hunk_start := pre.length }
      { header := startL, ours := [], theirs := [], context_before := [],
        context_after := [], start_line := some pre.length }
      hours rfl rfl]
  simp only [List.nil_append, scanFrom]
  have hstep2 : scanStep k content
      { hunks := [],
        current := some { header := startL, ours := oursB, theirs := [],
                          context_before := [], context_after := [],
                          start_line := some pre.length },
        state := PState.ours, hunk_start := pre.length }
      (pre.length + 1 + oursB.length) sep
      = { hunks := [],
          current := some { header := startL, ours := oursB, theirs := [],
                            context_before := [], context_after := [],
                            start_line := some pre.length },
          state := PState.theirs, hunk_start := pre.length } := by
    simp [scanStep, sep_not_start hsep, hsep]
  rw [hstep2, scanFrom_append]
  rw [scanFrom_collect_theirs k content theirsB (pre.length + 1 + oursB.length + 1)
      { hunks := [],
        current := some { header := startL, ours := oursB, theirs := [],
                          context_before := [], context_after := [],
                          start_line := some pre.length },
        state := PState.theirs, hunk_start := pre.length }
      { header := startL, ours := oursB, theirs := [], context_before := [],
        context_after := [], start_line := some pre.length }
      hth rfl rfl]
  simp only [List.nil_append, scanFrom]
  have hstep3 : scanStep k content
      { hunks := [],
        current := some { header := startL, ours := oursB, theirs := theirsB,
                          context_before := [], context_after := [],
                          start_line := some pre.length },
        state := PState.theirs, hunk_start := pre.length }
      (pre.length + 1 + oursB.length + 1 + theirsB.length) endm
      = { hunks := [{ header := startL, ours := oursB, theirs := theirsB ++ [endm],
                      context_before := (extract_context k content pre.length
                        (pre.length + oursB.length + theirsB.length + 3)).1,
                      context_after := (extract_context k content pre.length
                        (pre.length + oursB.length + theirsB.length + 3)).2,
                      start_line := some pre.length }],
          current := none, state := PState.none, hunk_start := pre.length } := by
    have harith : pre.length + 1 + oursB.length + 1 + theirsB.length + 1
        = pre.length + oursB.length + theirsB.length + 3 := by omega
    simp [scanStep, endm_not_start he, he, harith]
  rw [hstep3]
  exact scanFrom_idle k content post _ _ hpost rfl rfl

lemma take_min_length (k : Nat) (xs : List String) :
    xs.take (min k xs.length) = xs.take k := by
  rcases Nat.le_total k xs.length with h | h
  · rw [Nat.min_eq_left h]
  · rw [Nat.min_eq_right h, List.take_length, List.take_of_length_le h]

/-- Parsing a well-formed single-hunk file: one hunk, whose `theirs` buffer
ends with the end-marker line, with the context windows clipped at the file
boundaries. -/
lemma get_conflicts_single_hunk (k : Nat)
    (pre oursB theirsB post : List String) (startL sep endm : String)
    (hs : startswith startL "<<<<<<<" = true)
    (hsep : startswith sep "=======" = true)
    (he : startswith endm ">>>>>>>" = true)
    (hpre : ∀ l ∈ pre, startswith l "<<<<<<<" = false)
    (hours : ∀ l ∈ oursB, noMarker l)
    (hth : ∀ l ∈ theirsB, noMarker l)
    (hpost : ∀ l ∈ post, startswith l "<<<<<<<" = false) :
    get_conflicts (pre ++ startL :: (oursB ++ sep :: (theirsB ++ endm :: post))) k
      = [{ header := startL, ours := oursB, theirs := theirsB ++ [endm],
           context_before := pre.drop (pre.length - k),
           context_after := post.take k,
           start_line := some pre.length }] := by
  have hassoc : pre ++ startL :: (oursB ++ sep :: (theirsB ++ endm :: post))
      = (pre ++ startL :: (oursB ++ sep :: (theirsB ++ [endm]))) ++ post := by
    simp [List.append_assoc]
  have hblock : (pre ++ startL :: (oursB ++ sep :: (theirsB ++ [endm]))).length
      = pre.length + oursB.length + theirsB.length + 3 := by
    simp only [List.length_append, List.length_cons, List.length_nil]
    omega
  have hb : (extract_context k
        (pre ++ startL :: (oursB ++ sep :: (theirsB ++ endm :: post)))
        pre.length (pre.length + oursB.length + theirsB.length + 3)).1
      = pre.drop (pre.length - k) := by
    simp only [extract_context, pySlice]
    rw [List.take_left]
  have ha : (extract_context k
        (pre ++ startL :: (oursB ++ sep :: (theirsB ++ endm :: post)))
        pre.length (pre.length + oursB.length + theirsB.length + 3)).2
      = post.take k := by
    simp only [extract_context, pySlice]
    rw [List.drop_take, hassoc]
    have hlen2 : ((pre ++ startL :: (oursB ++ sep :: (theirsB ++ [endm]))) ++ post).length
        = pre.length + oursB.length + theirsB.length + 3 + post.length := by
      rw [List.length_append, hblock]
    rw [hlen2]
    have hdropE : List.drop (pre.length + oursB.length + theirsB.length + 3)
        ((pre ++ startL :: (oursB ++ sep :: (theirsB ++ [endm]))) ++ post) = post := by
      rw [← hblock, List.drop_left]
    rw [hdropE]
    have hcount : min (pre.length + oursB.length + theirsB.length + 3 + post.length)
          (pre.length + oursB.length + theirsB.length + 3 + k)
          - (pre.length + oursB.length + theirsB.length + 3)
        = min k post.length := by
      omega
    rw [hcount]
    exact take_min_length k post
  unfold get_conflicts
  rw [scanFrom_single_hunk k
    (pre ++ startL :: (oursB ++ sep :: (theirsB ++ endm :: post)))
    pre oursB theirsB post startL sep endm hs hsep he hpre hours hth hpost]
  dsimp only
  rw [hb, ha]

lemma resolve_hunk_spans (pre oursB theirsB post cb ca : List String)
    (startL sep endm : String) :
    resolve_hunk (pre ++ startL :: (oursB ++ sep :: (theirsB ++ endm :: post)))
        { header := startL, ours := oursB, theirs := theirsB ++ [endm],
          context_before := cb, context_after := ca,
          start_line := some pre.length } Choice.ours
      = pre ++ oursB ++ post
    ∧ resolve_hunk (pre ++ startL :: (oursB ++ sep :: (theirsB ++ endm :: post)))
        { header := startL, ours := oursB, theirs := theirsB ++ [endm],
          context_before := cb, context_after := ca,
          start_line := some pre.length } Choice.theirs
      = pre ++ theirsB ++ post := by
  have htake : (pre ++ startL :: (oursB ++ sep :: (theirsB ++ endm :: post))).take
      pre.length = pre := List.take_left pre _
  have hassoc : pre ++ startL :: (oursB ++ sep :: (theirsB ++ endm :: post))
      = (pre ++ startL :: (oursB ++ sep :: (theirsB ++ [endm]))) ++ post := by
    simp [List.append_assoc]
  have hdrop : (pre ++ startL :: (oursB ++ sep :: (theirsB ++ endm :: post))).drop
      (pre.length + (2 + oursB.length + (theirsB ++ [endm]).length)) = post := by
    rw [hassoc]
    have harith : pre.length + (2 + oursB.length + (theirsB ++ [endm]).length)
        = (pre ++ startL :: (oursB ++ sep :: (theirsB ++ [endm]))).length := by
      simp only [List.length_append, List.length_cons, List.length_nil]
      omega
    rw [harith, List.drop_left]
  constructor
  · show (pre ++ startL :: (oursB ++ sep :: (theirsB ++ endm :: post))).take pre.length
        ++ oursB
        ++ (pre ++ startL :: (oursB ++ sep :: (theirsB ++ endm :: post))).drop
            (pre.length + (2 + oursB.length + (theirsB ++ [endm]).length))
      = pre ++ oursB ++ post
    rw [htake, hdrop]
  · show (pre ++ startL :: (oursB ++ sep :: (theirsB ++ endm :: post))).take pre.length
        ++ (theirsB ++ [endm]).dropLast
        ++ (pre ++ startL :: (oursB ++ sep :: (theirsB ++ endm :: post))).drop
            (pre.length + (2 + oursB.length + (theirsB ++ [endm]).length))
      = pre ++ theirsB ++ post
    rw [htake, hdrop, List.dropLast_concat]

/-- C1: on a well-formed single-hunk file, the keep-ours (resp. keep-theirs)
command rewrites the file content to the lines before the hunk, the ours
(resp. theirs) body, and the lines after the hunk — the start-marker,
separator and end-marker lines and the unchosen body are removed, every
line outside the hunk span is unchanged — and the controller loop ends in
the `resolved` state.  The content effect of the absent `resolve_hunk` is
modelled from the spec (see `resolve_hunk`). -/
theorem keep_command_rewrites_single_hunk_file (view : ViewMode) (k : Nat)
    (pre oursB theirsB post : List String) (startL sep endm : String)
    (hs : startswith startL "<<<<<<<" = true)
    (hsep : startswith sep "=======" = true)
    (he : startswith endm ">>>>>>>" = true)
    (hpre : ∀ l ∈ pre, startswith l "<<<<<<<" = false)
    (hours : ∀ l ∈ oursB, noMarker l)
    (hth : ∀ l ∈ theirsB, noMarker l)
    (hpost : ∀ l ∈ post, startswith l "<<<<<<<" = false) :
    process_step
        { view_mode := view, context_lines := k,
          content := pre ++ startL :: (oursB ++ sep :: (theirsB ++ endm :: post)),
          hunks := get_conflicts
            (pre ++ startL :: (oursB ++ sep :: (theirsB ++ endm :: post))) k }
        Command.o
      = ({ view_mode := view, context_lines := k,
           content := pre ++ oursB ++ post,
           hunks := get_conflicts
             (pre ++ startL :: (oursB ++ sep :: (theirsB ++ endm :: post))) k },
         LoopStatus.resolved)
    ∧ process_step
        { view_mode := view, context_lines := k,
          content := pre ++ startL :: (oursB ++ sep :: (theirsB ++ endm :: post)),
          hunks := get_conflicts
            (pre ++ startL :: (oursB ++ sep :: (theirsB ++ endm :: post))) k }
        Command.t
      = ({ view_mode := view, context_lines := k,
           content := pre ++ theirsB ++ post,
           hunks := get_conflicts
             (pre ++ startL :: (oursB ++ sep :: (theirsB ++ endm :: post))) k },
         LoopStatus.resolved) := by
  have hparse := get_conflicts_single_hunk k pre oursB theirsB post startL sep endm
    hs hsep he hpre hours hth hpost
  have hres := resolve_hunk_spans pre oursB theirsB post
    (pre.drop (pre.length - k)) (post.take k) startL sep endm
  constructor
  · simp only [process_step, hparse]
    rw [hres.1]
  · simp only [process_step, hparse]
    rw [hres.2]

/-- Witness for C1 at the concrete single-hunk file of the spec's scenario. -/
theorem keep_command_rewrites_single_hunk_file_witness :
    process_step
        { view_mode := ViewMode.file, context_lines := 3,
          content := ["a\n"] ++ "<<<<<<< HEAD\n" ::
            (["x\n"] ++ "=======\n" :: (["y\n"] ++ ">>>>>>> branch\n" :: ["b\n"])),
          hunks := get_conflicts
            (["a\n"] ++ "<<<<<<< HEAD\n" ::
              (["x\n"] ++ "=======\n" :: (["y\n"] ++ ">>>>>>> branch\n" :: ["b\n"]))) 3 }
        Command.o
      = ({ view_mode := ViewMode.file, context_lines := 3,
           content := ["a\n"] ++ ["x\n"] ++ ["b\n"],
           hunks := get_conflicts
             (["a\n"] ++ "<<<<<<< HEAD\n" ::
               (["x\n"] ++ "=======\n" :: (["y\n"] ++ ">>>>>>> branch\n" :: ["b\n"]))) 3 },
         LoopStatus.resolved)
    ∧ process_step
        { view_mode := ViewMode.file, context_lines := 3,
          content := ["a\n"] ++ "<<<<<<< HEAD\n" ::
            (["x\n"] ++ "=======\n" :: (["y\n"] ++ ">>>>>>> branch\n" :: ["b\n"])),
          hunks := get_conflicts
            (["a\n"] ++ "<<<<<<< HEAD\n" ::
              (["x\n"] ++ "=======\n" :: (["y\n"] ++ ">>>>>>> branch\n" :: ["b\n"]))) 3 }
        Command.t
      = ({ view_mode := ViewMode.file, context_lines := 3,
           content := ["a\n"] ++ ["y\n"] ++ ["b\n"],
           hunks := get_conflicts
             (["a\n"] ++ "<<<<<<< HEAD\n" ::
               (["x\n"] ++ "=======\n" :: (["y\n"] ++ ">>>>>>> branch\n" :: ["b\n"]))) 3 },
         LoopStatus.resolved) :=
  keep_command_rewrites_single_hunk_file ViewMode.file 3
    ["a\n"] ["x\n"] ["y\n"] ["b\n"] "<<<<<<< HEAD\n" "=======\n" ">>>>>>> branch\n"
    (by decide) (by decide) (by decide) (by decide) (by decide) (by decide) (by decide)

/-- C5: the spec's concrete scenario — the seven-line file parses to
exactly one hunk with `ours = ["x\n"]`, `theirs = ["y\n", ">>>>>>> branch\n"]`
(the documented end-marker inclusion quirk), `context_before = ["a\n"]` and
`context_after = ["b\n"]` at the initial context size 3. -/
theorem single_hunk_scenario_parse :
    get_conflicts
      ["a\n", "<<<<<<< HEAD\n", "x\n", "=======\n", "y\n",
       ">>>>>>> branch\n", "b\n"] 3
      = [{ header := "<<<<<<< HEAD\n", ours := ["x\n"],
           theirs := ["y\n", ">>>>>>> branch\n"],
           context_before := ["a\n"], context_after := ["b\n"],
           start_line := some 1 }] := by decide

/-- C3 counterexample: on the hunk parsed from the spec's scenario file,
`display_hunk` does NOT strip the end-marker line from the theirs buffer:
its output contains the line `">>>>>>> branch"` between the separator tag
and the closing tag, and differs from the output the claim describes (one
with the theirs body only). -/
theorem display_hunk_keeps_end_marker_counterexample :
    get_conflicts
        ["a\n", "<<<<<<< HEAD\n", "x\n", "=======\n", "y\n",
         ">>>>>>> branch\n", "b\n"] 3
      = [{ header := "<<<<<<< HEAD\n", ours := ["x\n"],
           theirs := ["y\n", ">>>>>>> branch\n"],
           context_before := ["a\n"], context_after := ["b\n"],
           start_line := some 1 }]
    ∧ display_hunk
        { header := "<<<<<<< HEAD\n", ours := ["x\n"],
          theirs := ["y\n", ">>>>>>> branch\n"],
          context_before := ["a\n"], context_after := ["b\n"],
          start_line := some 1 } 0
      = ["\nConflict 1:", eqBanner, "a", "<<<<<<< HEAD\n", "<<<<<<< ours",
         "x", "=======", "y", ">>>>>>> branch", ">>>>>>> theirs", "b"]
    ∧ display_hunk
        { header := "<<<<<<< HEAD\n", ours := ["x\n"],
          theirs := ["y\n", ">>>>>>> branch\n"],
          context_before := ["a\n"], context_after := ["b\n"],
          start_line := some 1 } 0
      ≠ ["\nConflict 1:", eqBanner, "a", "<<<<<<< HEAD\n", "<<<<<<< ours",
         "x", "=======", "y", ">>>>>>> theirs", "b"] := by
  refine ⟨by decide, by decide, by decide⟩

/-- C3 (amended): the end-marker line appended to the theirs buffer is not
stripped by the per-hunk renderer — for every well-formed single-hunk file
the renderer emits: context-before, the header line, the normalized ours
tag, the ours body, the normalized separator tag, the theirs body
FOLLOWED BY the (right-stripped) end-marker line, the normalized theirs
closing tag, and context-after, in that order. -/
theorem renderer_emits_theirs_with_end_marker (k idx : Nat)
    (pre oursB theirsB post : List String) (startL sep endm : String)
    (hs : startswith startL "<<<<<<<" = true)
    (hsep : startswith sep "=======" = true)
    (he : startswith endm ">>>>>>>" = true)
    (hpre : ∀ l ∈ pre, startswith l "<<<<<<<" = false)
    (hours : ∀ l ∈ oursB, noMarker l)
    (hth : ∀ l ∈ theirsB, noMarker l)
    (hpost : ∀ l ∈ post, startswith l "<<<<<<<" = false) :
    (get_conflicts (pre ++ startL :: (oursB ++ sep :: (theirsB ++ endm :: post))) k).map
        (fun h => display_hunk h idx)
      = [["\nConflict " ++ toString (idx + 1) ++ ":", eqBanner]
          ++ (pre.drop (pre.length - k)).map rstrip
          ++ [startL, "<<<<<<< ours"]
          ++ oursB.map rstrip
          ++ ["======="]
          ++ (theirsB.map rstrip ++ [rstrip endm])
          ++ [">>>>>>> theirs"]
          ++ (post.take k).map rstrip] := by
  rw [get_conflicts_single_hunk k pre oursB theirsB post startL sep endm
    hs hsep he hpre hours hth hpost]
  simp [display_hunk, List.map_append, List.append_assoc]

/-- Witness for the amended C3 at the spec's scenario file. -/
theorem renderer_emits_theirs_with_end_marker_witness :
    (get_conflicts
        (["a\n"] ++ "<<<<<<< HEAD\n" ::
          (["x\n"] ++ "=======\n" :: (["y\n"] ++ ">>>>>>> branch\n" :: ["b\n"]))) 3).map
        (fun h => display_hunk h 0)
      = [["\nConflict " ++ toString (0 + 1) ++ ":", eqBanner]
          ++ (["a\n"].drop (["a\n"].length - 3)).map rstrip
          ++ ["<<<<<<< HEAD\n", "<<<<<<< ours"]
          ++ (["x\n"].map rstrip)
          ++ ["======="]
          ++ ((["y\n"].map rstrip) ++ [rstrip ">>>>>>> branch\n"])
          ++ [">>>>>>> theirs"]
          ++ (["b\n"].take 3).map rstrip] :=
  renderer_emits_theirs_with_end_marker 3 0
    ["a\n"] ["x\n"] ["y\n"] ["b\n"] "<<<<<<< HEAD\n" "=======\n" ">>>>>>> branch\n"
    (by decide) (by decide) (by decide) (by decide) (by decide) (by decide) (by decide)

/-- C7: the context windows of `extract_context` hold at most `k` lines,
never more than physically precede (resp. follow) the hunk, are the lines
immediately preceding `start` (a suffix of `content.take start`) and
immediately following `end` (a prefix of `content.drop end`), and growing
`k` by 3 extends each window contiguously (the old window is a
suffix/prefix of the new one). -/
theorem extract_context_window_properties (content : List String) (s e k : Nat) :
    (extract_context k content s e).1.length ≤ k
    ∧ (extract_context k content s e).2.length ≤ k
    ∧ (extract_context k content s e).1.length ≤ s
    ∧ (extract_context k content s e).2.length ≤ content.length - e
    ∧ (extract_context k content s e).1 <:+ content.take s
    ∧ (extract_context k content s e).2 <+: content.drop e
    ∧ (extract_context k content s e).1 <:+ (extract_context (k + 3) content s e).1
    ∧ (extract_context k content s e).2 <+: (extract_context (k + 3) content s e).2 := by
  refine ⟨?_, ?_, ?_, ?_, ?_, ?_, ?_, ?_⟩
  · simp only [extract_context, pySlice, List.length_drop, List.length_take]
    omega
  · simp only [extract_context, pySlice, List.length_drop, List.length_take]
    omega
  · simp only [extract_context, pySlice, List.length_drop, List.length_take]
    omega
  · simp only [extract_context, pySlice, List.length_drop, List.length_take]
    omega
  · exact List.drop_suffix _ _
  · have h1 : (extract_context k content s e).2
        = (content.drop e).take (min content.length (e + k) - e) := by
      simp only [extract_context, pySlice]
      rw [List.drop_take]
    rw [h1]
    exact List.take_prefix _ _
  · have h2 : (extract_context k content s e).1
        = ((extract_context (k + 3) content s e).1).drop ((s - k) - (s - (k + 3))) := by
      simp only [extract_context, pySlice]
      rw [List.drop_drop]
      congr 1
      omega
    rw [h2]
    exact List.drop_suffix _ _
  · have h3 : (extract_context k content s e).2
        = (content.drop e).take (min content.length (e + k) - e) := by
      simp only [extract_context, pySlice]
      rw [List.drop_take]
    have h4 : (extract_context (k + 3) content s e).2
        = (content.drop e).take (min content.length (e + (k + 3)) - e) := by
      simp only [extract_context, pySlice]
      rw [List.drop_take]
    rw [h3, h4]
    exact List.take_prefix_take_left _ (by omega)

/-- C9: a line beginning with `=======` that arrives while the parser state
is `theirs` is appended verbatim to the theirs buffer — it is not treated
as a marker; only a separator seen in state `ours` switches the state, and
that separator is stored in neither side buffer. -/
theorem separator_in_theirs_is_literal :
    (∀ (k : Nat) (content : List String) (st : ScanState) (i : Nat)
        (line : String) (h : ConflictHunk),
      startswith line "=======" = true →
      st.state = PState.theirs →
      st.current = some h →
      scanStep k content st i line
        = { st with current := some { h with theirs := h.theirs ++ [line] } })
    ∧ (∀ (k : Nat) (content : List String) (st : ScanState) (i : Nat)
        (line : String),
      startswith line "=======" = true →
      st.state = PState.ours →
      scanStep k content st i line = { st with state := PState.theirs }) := by
  constructor
  · intro k content st i line h hsep hst hcur
    simp [scanStep, sep_not_start hsep, sep_not_end hsep, hsep, hst, hcur]
  · intro k content st i line hsep hst
    simp [scanStep, sep_not_start hsep, hsep, hst]

/-- Witness for C9: a second separator line inside the theirs section is
appended to the theirs buffer as literal text. -/
theorem separator_in_theirs_is_literal_witness :
    scanStep 3 []
        { hunks := [],
          current := some { header := "<<<<<<< a\n", ours := ["x\n"],
                            theirs := ["y\n"], context_before := [],
                            context_after := [], start_line := some 0 },
          state := PState.theirs, hunk_start := 0 } 4 "=======\n"
      = { hunks := [],
          current := some { header := "<<<<<<< a\n", ours := ["x\n"],
                            theirs := ["y\n", "=======\n"], context_before := [],
                            context_after := [], start_line := some 0 },
          state := PState.theirs, hunk_start := 0 } :=
  separator_in_theirs_is_literal.1 3 []
    { hunks := [],
      current := some { header := "<<<<<<< a\n", ours := ["x\n"],
                        theirs := ["y\n"], context_before := [],
                        context_after := [], start_line := some 0 },
      state := PState.theirs, hunk_start := 0 } 4 "=======\n"
    { header := "<<<<<<< a\n", ours := ["x\n"], theirs := ["y\n"],
      context_before := [], context_after := [], start_line := some 0 }
    (by decide) rfl rfl

/-- The state with which `process_file` starts on a freshly parsed file, at
the initial session state of `GitConflictResolver.__init__`. -/
def initFS (content : List String) : FileSession :=
  { view_mode := init_view_mode, context_lines := init_context_lines,
    content := content, hunks := get_conflicts content init_context_lines }

lemma step_context_lines (fs : FileSession) (cmd : Command) :
    (process_step fs cmd).1.context_lines
      = if cmd = Command.c then min (fs.context_lines + 3) 10
        else fs.context_lines := by
  cases cmd <;> try simp [process_step]
  · cases fs.hunks <;> simp [process_step]
  · cases fs.hunks <;> simp [process_step]

lemma steps_context_le_ten :
    ∀ (cmds : List Command) (fs : FileSession),
      fs.context_lines ≤ 10 → (steps fs cmds).context_lines ≤ 10 := by
  intro cmds
  induction cmds with
  | nil => intro fs h; exact h
  | cons cmd cmds ih =>
    intro fs h
    have hc := step_context_lines fs cmd
    simp only [steps, List.foldl_cons]
    apply ih
    rw [hc]
    split <;> omega

lemma steps_context_mono :
    ∀ (cmds : List Command) (fs : FileSession),
      fs.context_lines ≤ 10 →
      fs.context_lines ≤ (steps fs cmds).context_lines := by
  intro cmds
  induction cmds with
  | nil => intro fs _; exact Nat.le_refl _
  | cons cmd cmds ih =>
    intro fs h
    have hc := step_context_lines fs cmd
    simp only [steps, List.foldl_cons]
    have h1 : fs.context_lines ≤ (process_step fs cmd).1.context_lines := by
      rw [hc]
      split <;> omega
    have h2 : (process_step fs cmd).1.context_lines ≤ 10 := by
      rw [hc]
      split <;> omega
    exact Nat.le_trans h1 (ih _ h2)

/-- C6: the context-window size starts at 3, is changed only by the
more-context command (which sets `min (size + 3) 10`), never decreases
along any command trace from the initial state, never exceeds 10, and the
four-times-more-context trace yields sizes 6, 9, 10, 10. -/
theorem context_size_behaviour :
    init_context_lines = 3
    ∧ (∀ (fs : FileSession) (cmd : Command),
        (process_step fs cmd).1.context_lines = fs.context_lines
          ∨ cmd = Command.c)
    ∧ (∀ fs : FileSession,
        (process_step fs Command.c).1.context_lines
          = min (fs.context_lines + 3) 10)
    ∧ (∀ (content : List String) (cmds : List Command),
        (steps (initFS content) cmds).context_lines ≤ 10)
    ∧ (∀ (content : List String) (cmds cmds2 : List Command),
        (steps (initFS content) cmds).context_lines
          ≤ (steps (initFS content) (cmds ++ cmds2)).context_lines)
    ∧ (steps (initFS []) [Command.c]).context_lines = 6
    ∧ (steps (initFS []) [Command.c, Command.c]).context_lines = 9
    ∧ (steps (initFS []) [Command.c, Command.c, Command.c]).context_lines = 10
    ∧ (steps (initFS [])
        [Command.c, Command.c, Command.c, Command.c]).context_lines = 10 := by
  refine ⟨rfl, ?_, ?_, ?_, ?_, by decide, by decide, by decide, by decide⟩
  · intro fs cmd
    by_cases hcmd : cmd = Command.c
    · exact Or.inr hcmd
    · have hc := step_context_lines fs cmd
      rw [if_neg hcmd] at hc
      exact Or.inl hc
  · intro fs
    have hc := step_context_lines fs Command.c
    rw [if_pos rfl] at hc
    exact hc
  · intro content cmds
    exact steps_context_le_ten cmds _ (by simp [initFS, init_context_lines])
  · intro content cmds cmds2
    have hsplit : steps (initFS content) (cmds ++ cmds2)
        = steps (steps (initFS content) cmds) cmds2 := by
      simp [steps, List.foldl_append]
    rw [hsplit]
    exact steps_context_mono cmds2 _
      (steps_context_le_ten cmds _ (by simp [initFS, init_context_lines]))

/-- C4 (code bug): on a file with six lines before its hunk, the
more-context command raises `context_lines` from 3 to 6 but leaves the
file's hunk list — parsed once at src 194 — untouched: the hunk still
carries the three-line window computed at parse time, although re-parsing
at size 6 would produce the six-line window the next render is supposed to
show. -/
theorem more_context_does_not_rewindow :
    (process_step
        (initFS ["c1\n", "c2\n", "c3\n", "c4\n", "c5\n", "c6\n",
                 "<<<<<<< a\n", "x\n", "=======\n", "y\n", ">>>>>>> b\n"])
        Command.c).1.context_lines = 6
    ∧ (process_step
        (initFS ["c1\n", "c2\n", "c3\n", "c4\n", "c5\n", "c6\n",
                 "<<<<<<< a\n", "x\n", "=======\n", "y\n", ">>>>>>> b\n"])
        Command.c).2 = LoopStatus.selecting
    ∧ (process_step
        (initFS ["c1\n", "c2\n", "c3\n", "c4\n", "c5\n", "c6\n",
                 "<<<<<<< a\n", "x\n", "=======\n", "y\n", ">>>>>>> b\n"])
        Command.c).1.hunks
      = (initFS ["c1\n", "c2\n", "c3\n", "c4\n", "c5\n", "c6\n",
                 "<<<<<<< a\n", "x\n", "=======\n", "y\n", ">>>>>>> b\n"]).hunks
    ∧ (initFS ["c1\n", "c2\n", "c3\n", "c4\n", "c5\n", "c6\n",
               "<<<<<<< a\n", "x\n", "=======\n", "y\n", ">>>>>>> b\n"]).hunks.map
        ConflictHunk.context_before
      = [["c4\n", "c5\n", "c6\n"]]
    ∧ (get_conflicts ["c1\n", "c2\n", "c3\n", "c4\n", "c5\n", "c6\n",
               "<<<<<<< a\n", "x\n", "=======\n", "y\n", ">>>>>>> b\n"] 6).map
        ConflictHunk.context_before
      = [["c1\n", "c2\n", "c3\n", "c4\n", "c5\n", "c6\n"]] := by
  refine ⟨by decide, by decide, by decide, by decide, by decide⟩

lemma run_file_mcv :
    ∀ (pre : List Command) (fs : FileSession) (cs : List Command),
      (∀ cmd ∈ pre, cmd = Command.m ∨ cmd = Command.c ∨ cmd = Command.v) →
      run_file fs (pre ++ cs) = run_file (steps fs pre) cs := by
  intro pre
  induction pre with
  | nil => intro fs cs _; rfl
  | cons cmd pre ih =>
    intro fs cs hpre
    have hnext : ∀ x ∈ pre, x = Command.m ∨ x = Command.c ∨ x = Command.v :=
      fun x hx => hpre x (List.mem_cons_of_mem cmd hx)
    have hsteps : steps fs (cmd :: pre) = steps (process_step fs cmd).1 pre := by
      simp [steps, List.foldl_cons]
    rcases hpre cmd (List.mem_cons_self cmd pre) with h | h | h <;> subst h <;>
      (rw [hsteps]
       simp only [List.cons_append, run_file, process_step]
       exact ih _ cs hnext)

lemma steps_mcv_content :
    ∀ (pre : List Command) (fs : FileSession),
      (∀ cmd ∈ pre, cmd = Command.m ∨ cmd = Command.c ∨ cmd = Command.v) →
      (steps fs pre).content = fs.content ∧ (steps fs pre).hunks = fs.hunks := by
  intro pre
  induction pre with
  | nil => intro fs _; exact ⟨rfl, rfl⟩
  | cons cmd pre ih =>
    intro fs hpre
    have hnext : ∀ x ∈ pre, x = Command.m ∨ x = Command.c ∨ x = Command.v :=
      fun x hx => hpre x (List.mem_cons_of_mem cmd hx)
    have hsteps : steps fs (cmd :: pre) = steps (process_step fs cmd).1 pre := by
      simp [steps, List.foldl_cons]
    rcases hpre cmd (List.mem_cons_self cmd pre) with h | h | h <;> subst h <;>
      (rw [hsteps]
       obtain ⟨h1, h2⟩ := ih _ hnext
       refine ⟨?_, ?_⟩
       · rw [h1]; simp [process_step]
       · rw [h2]; simp [process_step])

/-- C2: the skip command leaves the file content untouched in every session
state and ends the current file's loop in the `skipped` state, after which
the driver moves on to the remaining conflicted files.  The content effect
of the absent `resolve_hunk` callee is modelled from the spec's transition
table (see `process_step`). -/
theorem skip_leaves_content_untouched :
    (∀ fs : FileSession, process_step fs Command.s = (fs, LoopStatus.skipped))
    ∧ (∀ (sess : Session) (f : List String) (rest : List (List String))
          (pre cs : List Command),
        (∀ cmd ∈ pre, cmd = Command.m ∨ cmd = Command.c ∨ cmd = Command.v) →
        get_conflicts f sess.context_lines ≠ [] →
        run_files sess (f :: rest) (pre ++ Command.s :: cs)
          = (f :: (run_files (sessionOf (steps (fileState sess f) pre)) rest cs).1,
             (run_files (sessionOf (steps (fileState sess f) pre)) rest cs).2)) := by
  constructor
  · intro fs; rfl
  · intro sess f rest pre cs hpre hne
    have hempty : (get_conflicts f sess.context_lines).isEmpty = false := by
      cases hgc : get_conflicts f sess.context_lines with
      | nil => exact absurd hgc hne
      | cons a as => rfl
    have hrf : run_file (fileState sess f) (pre ++ Command.s :: cs)
        = (steps (fileState sess f) pre, LoopStatus.skipped, cs) := by
      rw [run_file_mcv pre _ _ hpre]
      simp [run_file, process_step]
    obtain ⟨hcont, -⟩ := steps_mcv_content pre (fileState sess f) hpre
    have hcf : (fileState sess f).content = f := rfl
    simp [run_files, hempty, hrf, hcont, hcf, sessionOf]

/-- Witness for C2 at the spec's scenario file. -/
theorem skip_leaves_content_untouched_witness :
    run_files { view_mode := ViewMode.file, context_lines := 3 }
        [["a\n", "<<<<<<< HEAD\n", "x\n", "=======\n", "y\n",
          ">>>>>>> branch\n", "b\n"]]
        [Command.s]
      = ([["a\n", "<<<<<<< HEAD\n", "x\n", "=======\n", "y\n",
           ">>>>>>> branch\n", "b\n"]], RunOutcome.completed) :=
  skip_leaves_content_untouched.2 { view_mode := ViewMode.file, context_lines := 3 }
    ["a\n", "<<<<<<< HEAD\n", "x\n", "=======\n", "y\n", ">>>>>>> branch\n", "b\n"]
    [] [] [] (by decide) (by decide)

/-- C8: the quit command leaves the current state untouched and aborts; at
driver level the whole run stops with exit code 0, every file — the current
one and all remaining ones — keeping its content, with no further file
processed. -/
theorem quit_terminates_run :
    (∀ fs : FileSession, process_step fs Command.q = (fs, LoopStatus.aborted))
    ∧ exit_code RunOutcome.quitExit = some 0
    ∧ (∀ (sess : Session) (f : List String) (rest : List (List String))
          (pre cs : List Command),
        (∀ cmd ∈ pre, cmd = Command.m ∨ cmd = Command.c ∨ cmd = Command.v) →
        get_conflicts f sess.context_lines ≠ [] →
        run_files sess (f :: rest) (pre ++ Command.q :: cs)
          = (f :: rest, RunOutcome.quitExit)) := by
  refine ⟨fun fs => rfl, rfl, ?_⟩
  intro sess f rest pre cs hpre hne
  have hempty : (get_conflicts f sess.context_lines).isEmpty = false := by
    cases hgc : get_conflicts f sess.context_lines with
    | nil => exact absurd hgc hne
    | cons a as => rfl
  have hrf : run_file (fileState sess f) (pre ++ Command.q :: cs)
      = (steps (fileState sess f) pre, LoopStatus.aborted, cs) := by
    rw [run_file_mcv pre _ _ hpre]
    simp [run_file, process_step]
  obtain ⟨hcont, -⟩ := steps_mcv_content pre (fileState sess f) hpre
  have hcf : (fileState sess f).content = f := rfl
  simp [run_files, hempty, hrf, hcont, hcf]

/-- Witness for C8: quit at the first prompt of the first of two
conflicted files leaves both contents unchanged with exit code 0. -/
theorem quit_terminates_run_witness :
    run_files { view_mode := ViewMode.file, context_lines := 3 }
        [["a\n", "<<<<<<< HEAD\n", "x\n", "=======\n", "y\n",
          ">>>>>>> branch\n", "b\n"], ["z\n"]]
        [Command.q]
      = ([["a\n", "<<<<<<< HEAD\n", "x\n", "=======\n", "y\n",
           ">>>>>>> branch\n", "b\n"], ["z\n"]], RunOutcome.quitExit) :=
  quit_terminates_run.2.2 { view_mode := ViewMode.file, context_lines := 3 }
    ["a\n", "<<<<<<< HEAD\n", "x\n", "=======\n", "y\n", ">>>>>>> branch\n", "b\n"]
    [["z\n"]] [] [] (by decide) (by decide)

/-- C10: invoked with `--mergetool` but at least one of LOCAL, BASE, REMOTE
and MERGED unset, `main` neither errors nor exits: `all([...])` is false
(src 241), so control falls through to the regular no-argument operation,
which processes every conflicted file reported by the version-control
layer with the initial session state. -/
theorem mergetool_missing_env_falls_back (env : PyEnv)
    (conflicted : List (List String)) (mergedContent : List String)
    (cmds : List Command)
    (hlen : 1 < env.argv.length)
    (hargv : env.argv.getD 1 "" = "--mergetool")
    (hmiss : env.local_ = none ∨ env.base = none ∨ env.remote = none
      ∨ env.merged = none) :
    main_dispatch env = MainMode.regular
    ∧ main_run env conflicted mergedContent cmds
      = run_files { view_mode := init_view_mode, context_lines := init_context_lines }
          conflicted cmds := by
  have hd : main_dispatch env = MainMode.regular := by
    unfold main_dispatch
    rw [if_pos ⟨hlen, hargv⟩]
    rcases hmiss with h | h | h | h <;> simp [h, truthy, List.all]
  refine ⟨hd, ?_⟩
  unfold main_run
  rw [hd]

/-- Witness for C10 with MERGED unset. -/
theorem mergetool_missing_env_falls_back_witness :
    main_dispatch
        { argv := ["git-simple-merge.py", "--mergetool"],
          local_ := some "f.LOCAL", base := some "f.BASE",
          remote := some "f.REMOTE", merged := none }
      = MainMode.regular
    ∧ main_run
        { argv := ["git-simple-merge.py", "--mergetool"],
          local_ := some "f.LOCAL", base := some "f.BASE",
          remote := some "f.REMOTE", merged := none }
        [] [] []
      = run_files { view_mode := init_view_mode, context_lines := init_context_lines }
          [] [] :=
  mergetool_missing_env_falls_back
    { argv := ["git-simple-merge.py", "--mergetool"],
      local_ := some "f.LOCAL", base := some "f.BASE",
      remote := some "f.REMOTE", merged := none }
    [] [] [] (by decide) (by decide) (Or.inr (Or.inr (Or.inr rfl)))

end GitSimpleMerge
